import Mathlib

/-!
Verification development for the ddblabs-statistics notebook CI scripts:
.github/scripts/execute_notebooks.py (the runner) and
.github/scripts/generate_notebooks_page.py (the page generator).

File paths are modelled as lists of components relative to the repository
root; a path such as notebooks/a.ipynb is the list of its components, and
Path.parts corresponds to the list itself.  The filesystem walk
root.rglob is modelled by filtering a given list of all file paths of the
tree.  Functions of the Python standard library (fnmatch, sorted,
str.strip, str.split, str.lower, str.startswith, str.endswith) are
modelled by their documented semantics, as executable functions on
character lists so that every definition evaluates inside the kernel.
-/

namespace DdbStats

/-- Python str.strip on a character list: drop whitespace from both ends.
Only ASCII whitespace occurs in the repository inputs. -/
def trimChars (l : List Char) : List Char :=
  ((l.dropWhile Char.isWhitespace).reverse.dropWhile Char.isWhitespace).reverse

/-- Python str.strip, modelled through the character list of the string. -/
def strip (s : String) : String := String.mk (trimChars s.data)

/-- Accumulator loop for splitting a character list at a separator
character; the accumulator holds the current field reversed. -/
def splitCharAux (sep : Char) : List Char → List Char → List (List Char)
  | [], acc => [acc.reverse]
  | c :: cs, acc =>
      if c = sep then acc.reverse :: splitCharAux sep cs []
      else splitCharAux sep cs (c :: acc)

/-- Python str.split with a one-character separator. -/
def splitChar (sep : Char) (s : String) : List String :=
  (splitCharAux sep s.data []).map String.mk

/-- Python str.startswith, modelled on character lists. -/
def strStartsWith (s pre : String) : Bool := pre.data.isPrefixOf s.data

/-- Python str.endswith, modelled on character lists. -/
def strEndsWith (s suf : String) : Bool :=
  suf.data.reverse.isPrefixOf s.data.reverse

/-- Python str.lower, as the ASCII lowering of every character. -/
def lowerStr (s : String) : List Char := s.data.map Char.toLower

/-- Fuel-indexed glob matcher modelling Python fnmatch.fnmatch for patterns
built from literal characters, the star wildcard (matching any sequence of
characters, including the path separator) and the question mark (matching
exactly one character); bracket character classes, which the repository
never uses, are treated as literal characters.  On POSIX systems
fnmatch.fnmatch performs no case normalisation, so none is modelled.
The fuel only drives termination: every recursive call shrinks the combined
length of pattern and string, so any fuel above that sum is enough. -/
def fnmatchFuel : Nat → List Char → List Char → Bool
  | 0, _, _ => false
  | _ + 1, [], s => s.isEmpty
  | fuel + 1, p :: ps, [] =>
      if p = '*' then fnmatchFuel fuel ps [] else false
  | fuel + 1, p :: ps, c :: cs =>
      if p = '*' then
        fnmatchFuel fuel ps (c :: cs) || fnmatchFuel fuel (p :: ps) cs
      else (p = '?' || p = c) && fnmatchFuel fuel ps cs

/-- Python fnmatch.fnmatch name pat, via the fuel-indexed matcher with
sufficient fuel. -/
def fnmatch (name pat : String) : Bool :=
  fnmatchFuel (pat.data.length + name.data.length + 1) pat.data name.data

/-- A file path, as its list of components relative to the repository root. -/
abbrev NbPath := List String

/-- The forward-slash form of a repo-relative path, as produced by
Path.as_posix on the path relative to the repository root. -/
def posixPath (p : NbPath) : String := String.intercalate "/" p

namespace ExecuteNotebooks

/-- The comma-separated patterns taken from the NOTEBOOK_EXCLUDE environment
variable: the variable is stripped, split on commas, every part stripped and
empty parts dropped (first loop of the source function
execute_notebooks._load_exclude_patterns). -/
def envPatterns (env : String) : List String :=
  let e := strip env
  if e = "" then []
  else ((splitChar ',' e).map strip).filter (fun p => !(p == ""))

/-- The patterns taken from the optional excludes file
.github/notebook-excludes.txt, given as the list of its lines when the file
exists: every line is stripped, and blank lines and lines starting with the
hash character are ignored (second loop of
execute_notebooks._load_exclude_patterns). -/
def filePatterns : Option (List String) → List String
  | none => []
  | some fileLines =>
      (fileLines.map strip).filter
        (fun s => !(s == "" || strStartsWith s "#"))

/-- The deduplication loop of execute_notebooks._load_exclude_patterns:
walk the pattern list keeping a set of already seen patterns, emitting each
pattern the first time it occurs. -/
def dedupLoop (seen : List String) : List String → List String
  | [] => []
  | p :: rest =>
      if p ∈ seen then dedupLoop seen rest
      else p :: dedupLoop (p :: seen) rest

/-- execute_notebooks._load_exclude_patterns: environment patterns first,
then file patterns, deduplicated preserving order. -/
def _load_exclude_patterns (env : String) (file : Option (List String)) :
    List String :=
  dedupLoop [] (envPatterns env ++ filePatterns file)

/-- execute_notebooks._is_excluded: a repo-relative posix path is excluded
when some pattern fnmatch-matches it. -/
def _is_excluded (repoRelativePosix : String) (patterns : List String) :
    Bool :=
  patterns.any (fun pat => fnmatch repoRelativePosix pat)

/-- The fixed skip set shared by both discovery routines. -/
def skip_parts : List String :=
  [".ipynb_checkpoints", "_site", ".quarto", ".git", ".github"]

/-- The allowlist of hidden directory names in the hidden-component check
of both discovery routines. -/
def allowedHidden : List String := [".github"]

/-- The filter root.rglob applies with the star-dot-ipynb pattern: keeps the
files whose final component ends in .ipynb. -/
def isIpynb (p : NbPath) : Bool := strEndsWith (p.getLastD "") ".ipynb"

/-- execute_notebooks.iter_notebooks: walk the tree for .ipynb files, skip
paths with a component in the fixed skip set, skip paths with a hidden
component outside the allowlist, and, when the loaded exclude pattern list
is non-empty, skip paths whose repo-relative posix form matches a pattern. -/
def iter_notebooks (tree : List NbPath) (env : String)
    (file : Option (List String)) : List NbPath :=
  let exclude_patterns := _load_exclude_patterns env file
  (tree.filter isIpynb).filter
    (fun p =>
      !(p.any (fun part => skip_parts.contains part)) &&
      !(p.any (fun part =>
          strStartsWith part "." && !(allowedHidden.contains part))) &&
      (if exclude_patterns.isEmpty then true
       else !(_is_excluded (posixPath p) exclude_patterns)))

end ExecuteNotebooks

namespace GenerateNotebooksPage

/-- generate_notebooks_page.iter_notebooks: identical walk and skip checks,
but with no exclude-pattern stage. -/
def iter_notebooks (tree : List NbPath) : List NbPath :=
  (tree.filter ExecuteNotebooks.isIpynb).filter
    (fun p =>
      !(p.any (fun part => ExecuteNotebooks.skip_parts.contains part)) &&
      !(p.any (fun part =>
          strStartsWith part "." &&
          !(ExecuteNotebooks.allowedHidden.contains part))))

end GenerateNotebooksPage

/-- Lexicographic less-or-equal on character lists by code point, the
ordering Python uses to compare strings. -/
def lexLe : List Char → List Char → Bool
  | [], _ => true
  | _ :: _, [] => false
  | c :: cs, d :: ds => if c = d then lexLe cs ds else decide (c < d)

/-- Strict lexicographic order on character lists, as the asymmetric part
of lexLe. -/
def lexLt (x y : List Char) : Bool := lexLe x y && !(lexLe y x)

/-- The sort key both scripts use: the posix form of the path, lowercased
(key lambda p colon p.as_posix().lower() in both main functions). -/
def sortKey (p : NbPath) : List Char := lowerStr (posixPath p)

/-- The relation by which the discovered notebooks are sorted. -/
def nbLe (a b : NbPath) : Prop := lexLe (sortKey a) (sortKey b) = true

instance : DecidableRel nbLe := fun a b => by
  unfold nbLe; infer_instance

/-- Python sorted with the lowercased-posix-path key, modelled as a sort
that is stable and ordered by the key, which is the documented contract of
sorted. -/
def sortedNotebooks (l : List NbPath) : List NbPath := l.insertionSort nbLe

namespace ExecuteNotebooks

/-- Parsing of the FAIL_FAST environment variable in execute_notebooks.main:
fail-fast is enabled unless the variable is set to the string 0; the
default (variable unset) enables it. -/
def failFastOf (v : Option String) : Bool := (v.getD "1") != "0"

/-- Result record of one run of execute_notebooks.main: the exit status,
the notebooks whose execution subprocess was started, the collected
failures, whether the aggregate failure summary was printed, and whether
the no-notebooks message was printed. -/
structure RunResult where
  exitCode : Nat
  attempted : List NbPath
  failures : List NbPath
  printedSummary : Bool
  printedNoNotebooks : Bool
deriving DecidableEq, Repr

/-- The execution loop of execute_notebooks.main over the sorted notebook
list, with the success of each execution subprocess given by the oracle
execOk.  It returns the notebooks attempted, the failures collected in
order, and whether the loop returned early through the fail-fast branch. -/
def execLoop (execOk : NbPath → Bool) (failFast : Bool) :
    List NbPath → List NbPath × List NbPath × Bool
  | [] => ([], [], false)
  | nb :: rest =>
      if execOk nb then
        let r := execLoop execOk failFast rest
        (nb :: r.1, r.2.1, r.2.2)
      else if failFast then ([nb], [nb], true)
      else
        let r := execLoop execOk failFast rest
        (nb :: r.1, nb :: r.2.1, r.2.2)

/-- The sorted discovery of execute_notebooks.main, its local variable
notebooks: the discovered paths sorted by the lowercased posix path. -/
def notebooksOf (tree : List NbPath) (env : String)
    (file : Option (List String)) : List NbPath :=
  sortedNotebooks (iter_notebooks tree env file)

/-- execute_notebooks.main: discover the notebooks, sort them by the
lowercased posix path, print the no-notebooks message and exit 0 when none
were found, otherwise run the loop; an early fail-fast return exits 1
without the summary, otherwise exit 1 with the summary when failures were
collected and 0 when none were. -/
def main (tree : List NbPath) (env : String) (file : Option (List String))
    (execOk : NbPath → Bool) (failFast : Bool) : RunResult :=
  let notebooks := notebooksOf tree env file
  if notebooks.isEmpty then
    { exitCode := 0, attempted := [], failures := [],
      printedSummary := false, printedNoNotebooks := true }
  else
    let r := execLoop execOk failFast notebooks
    if r.2.2 then
      { exitCode := 1, attempted := r.1, failures := r.2.1,
        printedSummary := false, printedNoNotebooks := false }
    else if r.2.1.isEmpty then
      { exitCode := 0, attempted := r.1, failures := r.2.1,
        printedSummary := false, printedNoNotebooks := false }
    else
      { exitCode := 1, attempted := r.1, failures := r.2.1,
        printedSummary := true, printedNoNotebooks := false }

end ExecuteNotebooks

namespace GenerateNotebooksPage

/-- A notebook cell as generate_notebooks_page.notebook_title reads it: its
cell type and its source.  The source of a cell is its list of lines: a
JSON string source stands here for its splitlines result, a JSON array
source for its entries. -/
structure Cell where
  cell_type : String
  source : List String
deriving DecidableEq, Repr

/-- Python line.lstrip with the hash argument: drop every leading hash
character. -/
def dropHashes (s : String) : String :=
  String.mk (s.data.dropWhile (fun c => c = '#'))

/-- The first loop over the lines of a markdown cell: each line stripped,
the first one starting with a hash character is the heading line. -/
def findHeadingLine (cellLines : List String) : Option String :=
  (cellLines.map strip).find? (fun l => strStartsWith l "#")

/-- The second loop over the lines of a markdown cell: each line stripped,
the first non-empty one is the fallback title line. -/
def firstNonEmptyLine (cellLines : List String) : Option String :=
  (cellLines.map strip).find? (fun l => !(l == ""))

/-- What one cell of the loop body of generate_notebooks_page.notebook_title
returns, when it returns: non-markdown cells are skipped; a markdown cell
with a heading line returns the heading with its markers stripped and
trimmed, or the stem when that is empty; a markdown cell without a heading
line returns its first non-empty line when it has one. -/
def cellTitle (stem : String) (c : Cell) : Option String :=
  if c.cell_type = "markdown" then
    match findHeadingLine c.source with
    | some h =>
        let t := strip (dropHashes h)
        some (if t = "" then stem else t)
    | none => firstNonEmptyLine c.source
  else none

/-- The cell loop of generate_notebooks_page.notebook_title: the first cell
whose loop body returns supplies the title, and the stem is returned when
no cell does. -/
def notebookTitleAux (stem : String) : List Cell → String
  | [] => stem
  | c :: rest =>
      match cellTitle stem c with
      | some t => t
      | none => notebookTitleAux stem rest

/-- generate_notebooks_page.notebook_title, over the parse result of the
notebook file: none stands for a json.loads failure (the except branch
returns the stem), some cells for the parsed cell list.  The path enters
the source function only through its stem, which is passed directly. -/
def notebook_title (parsed : Option (List Cell)) (stem : String) : String :=
  match parsed with
  | none => stem
  | some cells => notebookTitleAux stem cells

end GenerateNotebooksPage

/-! Lemmas about the lexicographic order used by the sort. -/

theorem lexLe_refl : ∀ x, lexLe x x = true
  | [] => rfl
  | c :: cs => by simp [lexLe, lexLe_refl cs]

theorem lexLe_total : ∀ x y, lexLe x y = true ∨ lexLe y x = true
  | [], _ => Or.inl rfl
  | _ :: _, [] => Or.inr rfl
  | c :: cs, d :: ds => by
      simp only [lexLe]
      by_cases hcd : c = d
      · subst hcd
        simpa using lexLe_total cs ds
      · have hdc : d ≠ c := fun h => hcd h.symm
        rw [if_neg hcd, if_neg hdc]
        rcases lt_or_gt_of_ne hcd with h | h
        · exact Or.inl (decide_eq_true h)
        · exact Or.inr (decide_eq_true h)

theorem lexLe_trans :
    ∀ x y z, lexLe x y = true → lexLe y z = true → lexLe x z = true
  | [], _, _, _, _ => rfl
  | _ :: _, [], _, hxy, _ => by simp [lexLe] at hxy
  | _ :: _, _ :: _, [], _, hyz => by simp [lexLe] at hyz
  | c :: cs, d :: ds, e :: es, hxy, hyz => by
      simp only [lexLe] at hxy hyz ⊢
      by_cases hcd : c = d <;> by_cases hde : d = e
      · subst hcd; subst hde
        rw [if_pos rfl] at hxy hyz ⊢
        exact lexLe_trans cs ds es hxy hyz
      · subst hcd
        rw [if_pos rfl] at hxy
        rw [if_neg hde] at hyz
        rw [if_neg hde]
        exact hyz
      · subst hde
        rw [if_neg hcd] at hxy ⊢
        exact hxy
      · rw [if_neg hcd] at hxy
        rw [if_neg hde] at hyz
        have hce : c < e :=
          lt_trans (of_decide_eq_true hxy) (of_decide_eq_true hyz)
        rw [if_neg (ne_of_lt hce)]
        exact decide_eq_true hce

instance : IsTotal NbPath nbLe := ⟨fun _ _ => lexLe_total _ _⟩

instance : IsTrans NbPath nbLe := ⟨fun _ _ _ => lexLe_trans _ _ _⟩

/-- C8: in both scripts the discovered notebooks are emitted in
case-insensitive ascending order of their forward-slash path: the sorted
list is a permutation of the discovered list, it is sorted by the
lowercased posix-path key, and whenever the lowercased path of the entry at
position i is strictly below the one at position j, position i comes first. -/
theorem C8_sorted_case_insensitive (l : List NbPath) :
    List.Perm (sortedNotebooks l) l ∧
    (sortedNotebooks l).Sorted nbLe ∧
    ∀ (i j : Nat) (hi : i < (sortedNotebooks l).length)
      (hj : j < (sortedNotebooks l).length),
      lexLt (sortKey ((sortedNotebooks l).get ⟨i, hi⟩))
          (sortKey ((sortedNotebooks l).get ⟨j, hj⟩)) = true →
      i < j := by
  refine ⟨List.perm_insertionSort nbLe l,
    List.sorted_insertionSort nbLe l, ?_⟩
  intro i j hi hj hlt
  by_contra hij
  rcases Nat.lt_or_ge j i with hji | hji
  · have hle : nbLe ((sortedNotebooks l).get ⟨j, hj⟩)
        ((sortedNotebooks l).get ⟨i, hi⟩) :=
      (List.sorted_insertionSort nbLe l).rel_get_of_lt hji
    unfold nbLe at hle
    simp only [List.get_eq_getElem] at hle
    simp only [lexLt, Bool.and_eq_true, Bool.not_eq_true',
      List.get_eq_getElem] at hlt
    simp [hlt.2] at hle
  · have hij' : i = j := Nat.le_antisymm hji (Nat.le_of_not_lt hij)
    subst hij'
    simp [lexLt, lexLe_refl] at hlt

/-- Witness for C8 at a concrete two-element list, exercising the
positional hypothesis. -/
theorem C8_witness : (0 : Nat) < 1 :=
  (C8_sorted_case_insensitive [["b.ipynb"], ["A.ipynb"]]).2.2 0 1
    (by decide) (by decide) (by decide)

/-! Lemmas about title extraction. -/

namespace GenerateNotebooksPage

theorem notebookTitleAux_hit {stem : String} {c : Cell} {t : String}
    (cells : List Cell) (h : cellTitle stem c = some t) :
    notebookTitleAux stem (c :: cells) = t := by
  simp [notebookTitleAux, h]

theorem notebookTitleAux_skip {stem : String} {c : Cell}
    (cells : List Cell) (h : cellTitle stem c = none) :
    notebookTitleAux stem (c :: cells) = notebookTitleAux stem cells := by
  simp [notebookTitleAux, h]

theorem cellTitle_of_not_markdown {stem : String} {c : Cell}
    (h : c.cell_type ≠ "markdown") : cellTitle stem c = none := by
  simp [cellTitle, h]

theorem notebookTitleAux_append_of_not_markdown {stem : String} :
    ∀ (pre rest : List Cell), (∀ d ∈ pre, d.cell_type ≠ "markdown") →
    notebookTitleAux stem (pre ++ rest) = notebookTitleAux stem rest
  | [], _, _ => rfl
  | d :: pre, rest, h => by
      rw [List.cons_append,
        notebookTitleAux_skip _ (cellTitle_of_not_markdown (h d (by simp))),
        notebookTitleAux_append_of_not_markdown pre rest
          (fun e he => h e (by simp [he]))]

theorem cellTitle_of_blank {stem : String} {c : Cell}
    (h : ∀ s ∈ c.source, strip s = "") : cellTitle stem c = none := by
  have hhead : findHeadingLine c.source = none := by
    rw [findHeadingLine, List.find?_eq_none]
    intro x hx
    rcases List.mem_map.mp hx with ⟨s, hs, rfl⟩
    rw [h s hs]
    decide
  have hne : firstNonEmptyLine c.source = none := by
    rw [firstNonEmptyLine, List.find?_eq_none]
    intro x hx
    rcases List.mem_map.mp hx with ⟨s, hs, rfl⟩
    rw [h s hs]
    decide
  by_cases hc : c.cell_type = "markdown"
  · simp [cellTitle, hc, hhead, hne]
  · exact cellTitle_of_not_markdown hc

theorem notebookTitleAux_of_blank {stem : String} :
    ∀ cells : List Cell,
    (∀ d ∈ cells, d.cell_type = "markdown" → ∀ s ∈ d.source, strip s = "") →
    notebookTitleAux stem cells = stem
  | [], _ => rfl
  | c :: cells, h => by
      by_cases hc : c.cell_type = "markdown"
      · rw [notebookTitleAux_skip _ (cellTitle_of_blank (h c (by simp) hc)),
          notebookTitleAux_of_blank cells (fun d hd => h d (by simp [hd]))]
      · rw [notebookTitleAux_skip _ (cellTitle_of_not_markdown hc),
          notebookTitleAux_of_blank cells (fun d hd => h d (by simp [hd]))]

theorem cellTitle_ne_empty {stem : String} {c : Cell} {t : String}
    (hstem : stem ≠ "") (h : cellTitle stem c = some t) : t ≠ "" := by
  by_cases hc : c.cell_type = "markdown"
  · rw [cellTitle, if_pos hc] at h
    cases hhead : findHeadingLine c.source with
    | some hd =>
        rw [hhead] at h
        simp only [Option.some.injEq] at h
        subst h
        split
        · exact hstem
        · assumption
    | none =>
        rw [hhead] at h
        have := List.find?_some h
        simpa using this
  · rw [cellTitle_of_not_markdown hc] at h
    exact absurd h (by simp)

theorem notebookTitleAux_ne_empty {stem : String} (hstem : stem ≠ "") :
    ∀ cells : List Cell, notebookTitleAux stem cells ≠ ""
  | [] => hstem
  | c :: cells => by
      cases hc : cellTitle stem c with
      | some t =>
          rw [notebookTitleAux_hit _ hc]
          exact cellTitle_ne_empty hstem hc
      | none =>
          rw [notebookTitleAux_skip _ hc]
          exact notebookTitleAux_ne_empty hstem cells

end GenerateNotebooksPage

/-- C6: when the notebook file fails to parse as JSON, title extraction
silently returns the filename stem; the function is total, so parse
failure cannot crash the generator. -/
theorem C6_parse_failure_returns_stem (stem : String) :
    GenerateNotebooksPage.notebook_title none stem = stem := rfl

open GenerateNotebooksPage in
/-- C5: title extraction scans cells in document order.  A first markdown
cell with a heading line wins with the heading markers stripped and the
result trimmed; with no heading line, its first non-empty stripped line is
used; when no markdown cell has any usable line the stem is returned; and
the two concrete instances of the claim hold: a first markdown cell with
the My-Title heading yields My Title, and a notebook without markdown
cells yields the stem. -/
theorem C5_title_extraction (stem : String)
    (pre post cells : List GenerateNotebooksPage.Cell)
    (c : GenerateNotebooksPage.Cell) (hd l : String) :
    (notebook_title
        (some [⟨"markdown", ["# My Title", "body"]⟩]) stem = "My Title") ∧
    ((∀ d ∈ cells, d.cell_type ≠ "markdown") →
      notebook_title (some cells) stem = stem) ∧
    ((∀ d ∈ pre, d.cell_type ≠ "markdown") → c.cell_type = "markdown" →
      findHeadingLine c.source = some hd →
      strip (dropHashes hd) ≠ "" →
      notebook_title (some (pre ++ c :: post)) stem =
        strip (dropHashes hd)) ∧
    ((∀ d ∈ pre, d.cell_type ≠ "markdown") → c.cell_type = "markdown" →
      findHeadingLine c.source = none →
      firstNonEmptyLine c.source = some l →
      notebook_title (some (pre ++ c :: post)) stem = l) ∧
    ((∀ d ∈ cells, d.cell_type = "markdown" →
        ∀ s ∈ d.source, strip s = "") →
      notebook_title (some cells) stem = stem) := by
  refine ⟨?_, ?_, ?_, ?_, ?_⟩
  · show notebookTitleAux stem [⟨"markdown", ["# My Title", "body"]⟩] =
      "My Title"
    refine notebookTitleAux_hit _ ?_
    rw [cellTitle, if_pos rfl]
    have h1 : findHeadingLine ["# My Title", "body"] = some "# My Title" :=
      by decide
    have h2 : strip (dropHashes "# My Title") = "My Title" := by decide
    rw [h1]
    simp [h2]
  · intro h
    exact notebookTitleAux_of_blank cells
      (fun d hd hmd => absurd hmd (h d hd))
  · intro hpre hmd hhead hne
    show notebookTitleAux stem (pre ++ c :: post) = _
    rw [notebookTitleAux_append_of_not_markdown pre _ hpre]
    refine notebookTitleAux_hit _ ?_
    rw [cellTitle, if_pos hmd, hhead]
    simp [hne]
  · intro hpre hmd hhead hfirst
    show notebookTitleAux stem (pre ++ c :: post) = _
    rw [notebookTitleAux_append_of_not_markdown pre _ hpre]
    refine notebookTitleAux_hit _ ?_
    rw [cellTitle, if_pos hmd, hhead]
    exact hfirst
  · intro h
    exact notebookTitleAux_of_blank cells h

/-- Witness for C5 at concrete notebooks, exercising every conjunct. -/
theorem C5_witness :
    (GenerateNotebooksPage.notebook_title
        (some [⟨"markdown", ["# My Title", "body"]⟩]) "nb" = "My Title") ∧
    (GenerateNotebooksPage.notebook_title
        (some [⟨"code", ["x = 1"]⟩]) "nb" = "nb") ∧
    (GenerateNotebooksPage.notebook_title
        (some [⟨"code", ["x = 1"]⟩, ⟨"markdown", ["intro", " ## T "]⟩]) "nb"
      = "T") ∧
    (GenerateNotebooksPage.notebook_title
        (some [⟨"code", ["x = 1"]⟩, ⟨"markdown", ["", " hello "]⟩]) "nb"
      = "hello") ∧
    (GenerateNotebooksPage.notebook_title
        (some [⟨"markdown", [" ", ""]⟩]) "nb" = "nb") := by
  have h1 := C5_title_extraction "nb" [⟨"code", ["x = 1"]⟩] []
    [⟨"code", ["x = 1"]⟩] ⟨"markdown", ["intro", " ## T "]⟩ "## T" "x"
  have h2 := C5_title_extraction "nb" [⟨"code", ["x = 1"]⟩] []
    [⟨"markdown", [" ", ""]⟩] ⟨"markdown", ["", " hello "]⟩ "x" "hello"
  refine ⟨h1.1, h1.2.1 (by decide), ?_, ?_, h2.2.2.2.2 (by decide)⟩
  · exact Eq.trans
      (h1.2.2.1 (by decide) rfl (by decide) (by decide)) (by decide)
  · exact h2.2.2.2.1 (by decide) rfl (by decide) (by decide)

/-- C10: for a notebook whose filename stem is non-empty, title extraction
returns a non-empty string, whatever the parse result; in particular a
markdown heading line consisting only of hash characters yields the stem,
not the empty string. -/
theorem C10_title_nonempty (parsed : Option (List GenerateNotebooksPage.Cell))
    (stem : String) (hstem : stem ≠ "") :
    GenerateNotebooksPage.notebook_title parsed stem ≠ "" ∧
    GenerateNotebooksPage.notebook_title
      (some [⟨"markdown", ["##", "body"]⟩]) stem = stem := by
  constructor
  · cases parsed with
    | none => exact hstem
    | some cells =>
        exact GenerateNotebooksPage.notebookTitleAux_ne_empty hstem cells
  · show GenerateNotebooksPage.notebookTitleAux stem _ = stem
    refine GenerateNotebooksPage.notebookTitleAux_hit _ ?_
    rw [GenerateNotebooksPage.cellTitle, if_pos rfl]
    have h1 : GenerateNotebooksPage.findHeadingLine ["##", "body"] = some "##" :=
      by decide
    have h2 : strip (GenerateNotebooksPage.dropHashes "##") = "" := by decide
    rw [h1]
    simp [h2]

/-! Lemmas about discovery. -/

/-- The exclude-pattern stage of the runner, as the predicate it applies
after the shared walk and skip checks. -/
def patternStage (env : String) (file : Option (List String))
    (p : NbPath) : Bool :=
  if (ExecuteNotebooks._load_exclude_patterns env file).isEmpty then true
  else !(ExecuteNotebooks._is_excluded (posixPath p)
    (ExecuteNotebooks._load_exclude_patterns env file))

theorem bool_shuffle (a b c d : Bool) :
    (((a && b) && c) && d) = ((c && (a && b)) && d) := by
  cases a <;> cases b <;> cases c <;> cases d <;> rfl

theorem iter_notebooks_eq_filter (tree : List NbPath) (env : String)
    (file : Option (List String)) :
    ExecuteNotebooks.iter_notebooks tree env file =
      (GenerateNotebooksPage.iter_notebooks tree).filter
        (patternStage env file) := by
  simp only [ExecuteNotebooks.iter_notebooks,
    GenerateNotebooksPage.iter_notebooks]
  rw [List.filter_filter, List.filter_filter, List.filter_filter]
  apply List.filter_congr
  intro p _
  simp only [patternStage]
  exact bool_shuffle _ _ _ _

/-- C1 counterexample: with a tree holding one notebook and an environment
exclude pattern naming it, the runner discovers nothing while the page
generator discovers the notebook, so the two discoveries differ. -/
theorem C1_counterexample :
    ExecuteNotebooks.iter_notebooks [["a.ipynb"]] "a.ipynb" none ≠
      GenerateNotebooksPage.iter_notebooks [["a.ipynb"]] ∧
    ExecuteNotebooks.iter_notebooks [["a.ipynb"]] "a.ipynb" none = [] ∧
    GenerateNotebooksPage.iter_notebooks [["a.ipynb"]] = [["a.ipynb"]] :=
  by decide

/-- C1 amended: the two discovery routines share the walk, the skip checks
and the ordering, but only the runner applies the exclude patterns: the
runner's discovery is the generator's discovery filtered by the pattern
stage, the two coincide whenever the loaded pattern list is empty, and the
runner's discovery is always a subset of the generator's. -/
theorem C1_discovery_refinement (tree : List NbPath) (env : String)
    (file : Option (List String)) :
    ExecuteNotebooks.iter_notebooks tree env file =
      (GenerateNotebooksPage.iter_notebooks tree).filter
        (patternStage env file) ∧
    (ExecuteNotebooks._load_exclude_patterns env file = [] →
      ExecuteNotebooks.iter_notebooks tree env file =
        GenerateNotebooksPage.iter_notebooks tree) ∧
    (∀ p, p ∈ ExecuteNotebooks.iter_notebooks tree env file →
      p ∈ GenerateNotebooksPage.iter_notebooks tree) := by
  refine ⟨iter_notebooks_eq_filter tree env file, ?_, ?_⟩
  · intro h
    rw [iter_notebooks_eq_filter tree env file]
    have hpred : ∀ p ∈ GenerateNotebooksPage.iter_notebooks tree,
        patternStage env file p = true := by
      intro p _
      rw [patternStage, h]
      simp
    rw [List.filter_eq_self.mpr hpred]
  · intro p hp
    rw [iter_notebooks_eq_filter tree env file] at hp
    exact (List.mem_filter.mp hp).1

/-- Witness for C1 at a concrete tree with no patterns loaded. -/
theorem C1_witness :
    ExecuteNotebooks.iter_notebooks [["a.ipynb"], ["b.txt"]] "" none =
      GenerateNotebooksPage.iter_notebooks [["a.ipynb"], ["b.txt"]] ∧
    ["a.ipynb"] ∈ GenerateNotebooksPage.iter_notebooks
      [["a.ipynb"], ["b.txt"]] := by
  have h := C1_discovery_refinement [["a.ipynb"], ["b.txt"]] "" none
  exact ⟨h.2.1 (by decide), h.2.2 ["a.ipynb"] (by decide)⟩

/-- C2 counterexample: a notebook under the allowed hidden directory is a
file the walk finds, yet neither discovery yields it, because that
directory name is also in the fixed skip set. -/
theorem C2_counterexample :
    ExecuteNotebooks.isIpynb [".github", "x.ipynb"] = true ∧
    [".github", "x.ipynb"] ∉
      ExecuteNotebooks.iter_notebooks [[".github", "x.ipynb"]] "" none ∧
    [".github", "x.ipynb"] ∉
      GenerateNotebooksPage.iter_notebooks [[".github", "x.ipynb"]] :=
  by decide

/-- C2 amended: discovery excludes every path with a hidden component, the
allowed hidden directory included: such a path passes the hidden-component
check when the component is the allowed one, but is then excluded anyway by
the fixed skip set, so no path with a hidden component is ever yielded by
either script. -/
theorem C2_hidden_never_yielded (tree : List NbPath) (env : String)
    (file : Option (List String)) (p : NbPath)
    (h : p.any (fun part => strStartsWith part ".") = true) :
    p ∉ ExecuteNotebooks.iter_notebooks tree env file ∧
    p ∉ GenerateNotebooksPage.iter_notebooks tree := by
  have hgen : p ∉ GenerateNotebooksPage.iter_notebooks tree := by
    intro hmem
    rw [GenerateNotebooksPage.iter_notebooks] at hmem
    have hpred := (List.mem_filter.mp hmem).2
    rcases List.any_eq_true.mp h with ⟨part, hin, hdot⟩
    simp only [Bool.and_eq_true, Bool.not_eq_true'] at hpred
    obtain ⟨hskip, hhid⟩ := hpred
    by_cases hgh : part = ".github"
    · have hc : ExecuteNotebooks.skip_parts.contains part = true := by
        subst hgh; decide
      have := List.any_eq_false.mp hskip part hin
      exact this hc
    · have hc : ExecuteNotebooks.allowedHidden.contains part = false := by
        simp [ExecuteNotebooks.allowedHidden, hgh]
      have := List.any_eq_false.mp hhid part hin
      rw [hdot, hc] at this
      simp at this
  refine ⟨?_, hgen⟩
  intro hmem
  rw [iter_notebooks_eq_filter tree env file] at hmem
  exact hgen (List.mem_filter.mp hmem).1

/-- Witness for C2 at a concrete hidden path. -/
theorem C2_witness :
    [".hidden", "y.ipynb"] ∉
      ExecuteNotebooks.iter_notebooks [[".hidden", "y.ipynb"]] "" none ∧
    [".hidden", "y.ipynb"] ∉
      GenerateNotebooksPage.iter_notebooks [[".hidden", "y.ipynb"]] :=
  C2_hidden_never_yielded [[".hidden", "y.ipynb"]] "" none
    [".hidden", "y.ipynb"] (by decide)

/-! Lemmas about pattern loading and deduplication. -/

namespace ExecuteNotebooks

/-- Deduplication as the claim words it: keep the head and deduplicate the
tail with later copies of the head removed, so exactly the first occurrence
of every element survives, in order.  Spec-side description, compared below
with the dedupLoop of the source. -/
def dedupFirst : List String → List String
  | [] => []
  | p :: rest => p :: dedupFirst (rest.filter (fun q => decide (q ≠ p)))
termination_by l => l.length
decreasing_by
  simp only [List.length_cons]
  exact Nat.lt_succ_of_le (List.length_filter_le _ _)

theorem dedupLoop_eq_dedupFirst :
    ∀ (l : List String) (seen : List String),
    dedupLoop seen l = dedupFirst (l.filter (fun q => decide (q ∉ seen)))
  | [], _ => by simp [dedupLoop, dedupFirst]
  | p :: rest, seen => by
      by_cases hp : p ∈ seen
      · have hd : ¬(decide (p ∉ seen) = true) := by simp [hp]
        rw [dedupLoop, if_pos hp, List.filter_cons, if_neg hd]
        exact dedupLoop_eq_dedupFirst rest seen
      · have hd : decide (p ∉ seen) = true := by simp [hp]
        rw [dedupLoop, if_neg hp, List.filter_cons, if_pos hd, dedupFirst,
          dedupLoop_eq_dedupFirst rest (p :: seen)]
        congr 1
        congr 1
        rw [List.filter_filter]
        apply List.filter_congr
        intro q _
        by_cases h1 : q = p <;> by_cases h2 : q ∈ seen <;> simp [h1, h2]

theorem dedupFirst_sublist : ∀ l : List String, List.Sublist (dedupFirst l) l
  | [] => by rw [dedupFirst]
  | p :: rest => by
      rw [dedupFirst]
      exact List.Sublist.cons₂ p
        ((dedupFirst_sublist _).trans (List.filter_sublist rest))
termination_by l => l.length
decreasing_by
  simp only [List.length_cons]
  exact Nat.lt_succ_of_le (List.length_filter_le _ _)

theorem dedupFirst_nodup : ∀ l : List String, (dedupFirst l).Nodup
  | [] => by rw [dedupFirst]; exact List.nodup_nil
  | p :: rest => by
      rw [dedupFirst]
      refine List.nodup_cons.mpr ⟨fun hmem => ?_, dedupFirst_nodup _⟩
      have := (dedupFirst_sublist _).mem hmem
      have := List.of_mem_filter this
      simp at this
termination_by l => l.length
decreasing_by
  simp only [List.length_cons]
  exact Nat.lt_succ_of_le (List.length_filter_le _ _)

theorem mem_dedupFirst : ∀ (l : List String) (a : String),
    a ∈ dedupFirst l ↔ a ∈ l
  | [], a => by rw [dedupFirst]
  | p :: rest, a => by
      rw [dedupFirst]
      by_cases hap : a = p
      · subst hap
        simp
      · simp only [List.mem_cons, hap, false_or]
        rw [mem_dedupFirst]
        simp [List.mem_filter, hap]
termination_by l => l.length
decreasing_by
  simp only [List.length_cons]
  exact Nat.lt_succ_of_le (List.length_filter_le _ _)

end ExecuteNotebooks

open ExecuteNotebooks in
/-- C7: the loaded exclude patterns are exactly the keep-first
deduplication of the environment patterns (stripped, empties dropped)
followed by the file patterns (stripped, blank and hash-starting lines
dropped); the result has no duplicates and contains exactly the patterns
of that concatenation; and with an empty pattern list the matching stage
excludes nothing. -/
theorem C7_load_exclude_patterns (env : String) (file : Option (List String))
    (rel : String) :
    _load_exclude_patterns env file =
      dedupFirst (envPatterns env ++ filePatterns file) ∧
    (_load_exclude_patterns env file).Nodup ∧
    (∀ a, a ∈ _load_exclude_patterns env file ↔
      a ∈ envPatterns env ++ filePatterns file) ∧
    _is_excluded rel [] = false := by
  have heq : _load_exclude_patterns env file =
      dedupFirst (envPatterns env ++ filePatterns file) := by
    rw [_load_exclude_patterns, dedupLoop_eq_dedupFirst]
    congr 1
    rw [List.filter_eq_self]
    intro a _
    simp
  refine ⟨heq, ?_, ?_, rfl⟩
  · rw [heq]; exact dedupFirst_nodup _
  · intro a
    rw [heq]
    exact mem_dedupFirst _ a

/-- Witness for C7 at a concrete environment value, exercising the
membership characterisation. -/
theorem C7_witness :
    "a" ∈ ExecuteNotebooks._load_exclude_patterns "a,b" none := by
  have h := C7_load_exclude_patterns "a,b" none ""
  exact (h.2.2.1 "a").mpr (by decide)

/-! Lemmas about the glob matcher. -/

theorem fnmatchFuel_mono :
    ∀ (f1 f2 : Nat) (p s : List Char), f1 ≤ f2 →
    fnmatchFuel f1 p s = true → fnmatchFuel f2 p s = true
  | 0, _, _, _, _, h => absurd h (by rw [fnmatchFuel]; simp)
  | _ + 1, 0, _, _, hle, _ => absurd hle (by omega)
  | _ + 1, _ + 1, [], _, _, h => h
  | f1 + 1, f2 + 1, p :: ps, [], hle, h => by
      have hle' : f1 ≤ f2 := Nat.le_of_succ_le_succ hle
      rw [fnmatchFuel] at h ⊢
      by_cases hstar : p = '*'
      · rw [if_pos hstar] at h ⊢
        exact fnmatchFuel_mono f1 f2 ps [] hle' h
      · rw [if_neg hstar] at h
        exact absurd h (by simp)
  | f1 + 1, f2 + 1, p :: ps, c :: cs, hle, h => by
      have hle' : f1 ≤ f2 := Nat.le_of_succ_le_succ hle
      rw [fnmatchFuel] at h ⊢
      by_cases hstar : p = '*'
      · rw [if_pos hstar] at h ⊢
        rcases Bool.or_eq_true_iff.mp h with h1 | h2
        · exact Bool.or_eq_true_iff.mpr
            (Or.inl (fnmatchFuel_mono f1 f2 ps (c :: cs) hle' h1))
        · exact Bool.or_eq_true_iff.mpr
            (Or.inr (fnmatchFuel_mono f1 f2 (p :: ps) cs hle' h2))
      · rw [if_neg hstar] at h ⊢
        rcases Bool.and_eq_true_iff.mp h with ⟨h1, h2⟩
        exact Bool.and_eq_true_iff.mpr
          ⟨h1, fnmatchFuel_mono f1 f2 ps cs hle' h2⟩

theorem star_matches :
    ∀ (s : List Char) (fuel : Nat), s.length + 2 ≤ fuel →
    fnmatchFuel fuel ['*'] s = true
  | [], fuel, h => by
      obtain ⟨f1, rfl⟩ : ∃ f1, fuel = f1 + 1 := ⟨fuel - 1, by omega⟩
      obtain ⟨f2, rfl⟩ : ∃ f2, f1 = f2 + 1 := ⟨f1 - 1, by omega⟩
      rw [fnmatchFuel, if_pos rfl, fnmatchFuel]
      simp
  | c :: cs, fuel, h => by
      obtain ⟨f1, rfl⟩ : ∃ f1, fuel = f1 + 1 := ⟨fuel - 1, by omega⟩
      rw [fnmatchFuel, if_pos rfl]
      have hrec := star_matches cs f1 (by simp at h; omega)
      simp [hrec]

/-- C9: the star wildcard of the runner's exclusion matching crosses
directory separators: a single-star pattern matches every repo-relative
posix path, and the concrete pattern of the claim excludes both the
directly nested and the deeper notebook path. -/
theorem C9_star_crosses_separators (s : String) :
    fnmatch s "*" = true ∧
    ExecuteNotebooks._is_excluded "a/sub/x.ipynb" ["a/*.ipynb"] = true ∧
    ExecuteNotebooks._is_excluded "a/x.ipynb" ["a/*.ipynb"] = true := by
  refine ⟨?_, by decide, by decide⟩
  show fnmatchFuel ("*".data.length + s.data.length + 1) "*".data s.data = true
  have h1 : "*".data = ['*'] := rfl
  have h2 : "*".data.length = 1 := rfl
  rw [h1, h2]
  exact star_matches s.data _ (by omega)

/-- Witness for C10 at a concrete notebook and stem. -/
theorem C10_witness :
    GenerateNotebooksPage.notebook_title
        (some [⟨"markdown", ["##", "body"]⟩]) "nb" ≠ "" ∧
    GenerateNotebooksPage.notebook_title
        (some [⟨"markdown", ["##", "body"]⟩]) "nb" = "nb" := by
  have h := C10_title_nonempty (some [⟨"markdown", ["##", "body"]⟩]) "nb"
    (by decide)
  exact ⟨h.1, h.2⟩

/-! Lemmas about the execution loop of the runner. -/

namespace ExecuteNotebooks

theorem execLoop_all_ok (execOk : NbPath → Bool) (ff : Bool) :
    ∀ l, (∀ nb ∈ l, execOk nb = true) → execLoop execOk ff l = (l, [], false)
  | [], _ => rfl
  | nb :: rest, h => by
      have hx := execLoop_all_ok execOk ff rest
        (fun x hx => h x (List.mem_cons_of_mem _ hx))
      rw [execLoop, if_pos (h nb (List.mem_cons_self nb rest)), hx]

theorem execLoop_no_ff (execOk : NbPath → Bool) :
    ∀ l, execLoop execOk false l =
      (l, l.filter (fun nb => !(execOk nb)), false)
  | [] => rfl
  | nb :: rest => by
      rw [execLoop]
      cases hx : execOk nb with
      | true => simp [hx, execLoop_no_ff execOk rest, List.filter_cons]
      | false => simp [hx, execLoop_no_ff execOk rest, List.filter_cons]

theorem execLoop_fails_nil_iff (execOk : NbPath → Bool) (ff : Bool) :
    ∀ l, ((execLoop execOk ff l).2.1 = [] ↔ ∀ nb ∈ l, execOk nb = true)
  | [] => by simp [execLoop]
  | nb :: rest => by
      rw [execLoop]
      cases hx : execOk nb with
      | true =>
          simp [hx, execLoop_fails_nil_iff execOk ff rest,
            List.forall_mem_cons]
      | false =>
          cases ff <;> simp [hx, List.forall_mem_cons]

theorem execLoop_early_fails (execOk : NbPath → Bool) (ff : Bool) :
    ∀ l, (execLoop execOk ff l).2.2 = true → (execLoop execOk ff l).2.1 ≠ []
  | [] => by simp [execLoop]
  | nb :: rest => by
      rw [execLoop]
      cases hx : execOk nb with
      | true => simpa using execLoop_early_fails execOk ff rest
      | false => cases ff <;> simp

end ExecuteNotebooks

open ExecuteNotebooks in
/-- C3: with fail-fast enabled by the unset FAIL_FAST variable (the
default) and a sorted discovery starting with a notebook whose execution
subprocess fails, the runner exits 1 at once: only that first notebook was
attempted, it is the only collected failure, and the aggregate failure
summary of the non-fail-fast path is not printed. -/
theorem C3_fail_fast_short_circuit (tree : List NbPath) (env : String)
    (file : Option (List String)) (execOk : NbPath → Bool)
    (nb1 nb2 : NbPath) (rest : List NbPath)
    (hdisc : notebooksOf tree env file = nb1 :: nb2 :: rest)
    (hfail : execOk nb1 = false) :
    failFastOf none = true ∧
    (main tree env file execOk (failFastOf none)).exitCode = 1 ∧
    (main tree env file execOk (failFastOf none)).attempted = [nb1] ∧
    (main tree env file execOk (failFastOf none)).failures = [nb1] ∧
    (main tree env file execOk (failFastOf none)).printedSummary = false := by
  have hff : failFastOf none = true := rfl
  have hloop : execLoop execOk true (nb1 :: nb2 :: rest) =
      ([nb1], [nb1], true) := by
    rw [execLoop, if_neg (show ¬(execOk nb1 = true) by simp [hfail])]
    rfl
  refine ⟨hff, ?_, ?_, ?_, ?_⟩ <;> simp [main, hdisc, hff, hloop]

/-- Witness for C3 at a concrete tree with two notebooks and a failing
execution oracle. -/
theorem C3_witness :
    (ExecuteNotebooks.main [["a.ipynb"], ["b.ipynb"]] "" none
      (fun _ => false) (ExecuteNotebooks.failFastOf none)).exitCode = 1 ∧
    (ExecuteNotebooks.main [["a.ipynb"], ["b.ipynb"]] "" none
      (fun _ => false) (ExecuteNotebooks.failFastOf none)).attempted =
      [["a.ipynb"]] ∧
    (ExecuteNotebooks.main [["a.ipynb"], ["b.ipynb"]] "" none
      (fun _ => false) (ExecuteNotebooks.failFastOf none)).failures =
      [["a.ipynb"]] ∧
    (ExecuteNotebooks.main [["a.ipynb"], ["b.ipynb"]] "" none
      (fun _ => false) (ExecuteNotebooks.failFastOf none)).printedSummary =
      false := by
  have h := C3_fail_fast_short_circuit [["a.ipynb"], ["b.ipynb"]] "" none
    (fun _ => false) ["a.ipynb"] ["b.ipynb"] [] (by decide) rfl
  exact ⟨h.2.1, h.2.2.1, h.2.2.2.1, h.2.2.2.2⟩

open ExecuteNotebooks in
/-- C4: the runner exits 0 exactly when every discovered notebook executes
successfully (vacuously so when none were discovered) and 1 exactly when
some discovered notebook fails; with fail-fast disabled every discovered
notebook is attempted, the failures are exactly the discovered notebooks
whose execution fails, in order, and a non-empty failure list is printed
as the aggregate summary; with zero discovered notebooks the runner prints
the no-notebooks message and exits 0. -/
theorem C4_exit_status (tree : List NbPath) (env : String)
    (file : Option (List String)) (execOk : NbPath → Bool)
    (failFast : Bool) :
    ((main tree env file execOk failFast).exitCode = 0 ↔
      ∀ nb ∈ notebooksOf tree env file, execOk nb = true) ∧
    ((main tree env file execOk failFast).exitCode = 1 ↔
      ∃ nb ∈ notebooksOf tree env file, execOk nb = false) ∧
    (failFast = false →
      (main tree env file execOk failFast).attempted =
        notebooksOf tree env file ∧
      (main tree env file execOk failFast).failures =
        (notebooksOf tree env file).filter (fun nb => !(execOk nb)) ∧
      ((main tree env file execOk failFast).failures ≠ [] →
        (main tree env file execOk failFast).printedSummary = true)) ∧
    (notebooksOf tree env file = [] →
      (main tree env file execOk failFast).exitCode = 0 ∧
      (main tree env file execOk failFast).printedNoNotebooks = true) := by
  have hfails := execLoop_fails_nil_iff execOk failFast
            (notebooksOf tree env file)
  have hexit : (main tree env file execOk failFast).exitCode =
      if (execLoop execOk failFast (notebooksOf tree env file)).2.1 = []
      then 0 else 1 := by
    simp only [main]
    by_cases hemp : (notebooksOf tree env file).isEmpty
    · rw [if_pos hemp]
      have : notebooksOf tree env file = [] := List.isEmpty_iff.mp hemp
      rw [this]
      simp [execLoop]
    · rw [if_neg hemp]
      by_cases he : (execLoop execOk failFast
          (notebooksOf tree env file)).2.2 = true
      · rw [if_pos he]
        have hne := execLoop_early_fails execOk failFast
          (notebooksOf tree env file) he
        simp [hne]
      · rw [if_neg he]
        by_cases hf : (execLoop execOk failFast
            (notebooksOf tree env file)).2.1.isEmpty
        · rw [if_pos hf]
          simp [List.isEmpty_iff.mp hf]
        · rw [if_neg hf]
          have : (execLoop execOk failFast
              (notebooksOf tree env file)).2.1 ≠ [] := by
            intro hc
            exact hf (by simp [hc])
          simp [this]
  refine ⟨?_, ?_, ?_, ?_⟩
  · rw [hexit]
    by_cases hc : (execLoop execOk failFast
        (notebooksOf tree env file)).2.1 = []
    · rw [if_pos hc]
      exact iff_of_true rfl (hfails.mp hc)
    · rw [if_neg hc]
      refine iff_of_false (by simp) (fun hall => hc (hfails.mpr hall))
  · rw [hexit]
    by_cases hc : (execLoop execOk failFast
        (notebooksOf tree env file)).2.1 = []
    · rw [if_pos hc]
      refine iff_of_false (by simp) ?_
      rintro ⟨nb, hmem, hfalse⟩
      have htrue := hfails.mp hc nb hmem
      rw [htrue] at hfalse
      exact absurd hfalse (by simp)
    · rw [if_neg hc]
      refine iff_of_true rfl ?_
      have hnall : ¬ ∀ nb ∈ notebooksOf tree env file, execOk nb = true :=
        fun hall => hc (hfails.mpr hall)
      push_neg at hnall
      obtain ⟨nb, hmem, hne⟩ := hnall
      exact ⟨nb, hmem, by simpa using hne⟩
  · intro hnoff
    subst hnoff
    by_cases hemp : notebooksOf tree env file = []
    · refine ⟨?_, ?_, ?_⟩ <;> simp [main, hemp, execLoop]
    · have hne : ¬((notebooksOf tree env file).isEmpty = true) := by
        simp [hemp]
      by_cases hf : ((notebooksOf tree env file).filter
          (fun nb => !(execOk nb))) = []
      · refine ⟨?_, ?_, ?_⟩ <;> simp [main, hne, execLoop_no_ff, hf]
      · refine ⟨?_, ?_, ?_⟩ <;> simp [main, hne, execLoop_no_ff, hf]
  · intro hnil
    simp only [main, hnil]
    simp

/-- Witness for C4: a run with fail-fast disabled and a failing notebook,
and a run over an empty tree. -/
theorem C4_witness :
    (ExecuteNotebooks.main [["a.ipynb"], ["b.ipynb"]] "" none
      (fun p => decide (p = ["a.ipynb"])) false).exitCode = 1 ∧
    (ExecuteNotebooks.main [["a.ipynb"], ["b.ipynb"]] "" none
      (fun p => decide (p = ["a.ipynb"])) false).attempted =
      ExecuteNotebooks.notebooksOf [["a.ipynb"], ["b.ipynb"]] "" none ∧
    (ExecuteNotebooks.main [] "" none (fun _ => true) false).exitCode = 0 ∧
    (ExecuteNotebooks.main [] "" none
      (fun _ => true) false).printedNoNotebooks = true := by
  have h := C4_exit_status [["a.ipynb"], ["b.ipynb"]] "" none
    (fun p => decide (p = ["a.ipynb"])) false
  have h0 := C4_exit_status [] "" none (fun _ => true) false
  have hemp := h0.2.2.2 (by decide)
  exact ⟨h.2.1.mpr ⟨["b.ipynb"], by decide, by decide⟩,
    (h.2.2.1 rfl).1, hemp.1, hemp.2⟩

end DdbStats
